import Mathlib

/-!
Verification of the core behaviours of the `paw-apps` freelance-crawler:
the dedup store over the `jobs` table, the keyword filter, the config
version store, the crawl orchestrator's run lock, and the web client's
job sorting, log window and progress computations (`app.js`).

Definitions are translated from the repository sources.  Where only the
documented schema, the READMEs and the web client are available (the
FastAPI backend is not part of the provided sources), the corresponding
operations are modelled from the specification and marked as such in
their doc comments.
-/

namespace PawApps

/-! ### String helpers modelling JS `toLowerCase`, `includes`, `parseInt` -/

/-- Lowercased character list of a string, modelling JS `s.toLowerCase()`. -/
def lowerList (s : String) : List Char :=
  s.toList.map Char.toLower

/-- Substring test on character lists, modelling JS `hay.includes(pat)`:
`containsSub pat hay` is true iff `pat` occurs contiguously in `hay`. -/
def containsSub (pat : List Char) : List Char → Bool
  | [] => pat.isEmpty
  | c :: rest => pat.isPrefixOf (c :: rest) || containsSub pat rest

/-- Case-insensitive substring test: `pat` occurs in `hay` ignoring case. -/
def containsCI (hay pat : String) : Bool :=
  containsSub (lowerList pat) (lowerList hay)

/-- Whitespace class, modelling the regex class `\s` (ASCII part). -/
def isWs (c : Char) : Bool :=
  c == ' ' || c == '\t' || c == '\n' || c == '\r' || c == '\x0B' || c == '\x0C'

/-- Numeric value of a maximal leading digit run. -/
def digitRunVal (l : List Char) : Int :=
  (l.takeWhile Char.isDigit).foldl (fun acc c => acc * 10 + ((c.toNat : Int) - 48)) 0

/-- JS `parseInt(s)`: skip leading whitespace, optional sign, then the maximal
leading digit run, ignoring any trailing garbage; `NaN` (here `none`) when no
digit follows.  Hexadecimal prefixes are not modelled (date components never
carry them). -/
def jsParseInt (s : String) : Option Int :=
  match s.toList.dropWhile isWs with
  | '-' :: rest =>
    if (rest.headD ' ').isDigit then some (-(digitRunVal rest)) else none
  | '+' :: rest =>
    if (rest.headD ' ').isDigit then some (digitRunVal rest) else none
  | l => if (l.headD ' ').isDigit then some (digitRunVal l) else none

/-! ### Dedup store over the `jobs` table

The documented schema (repository README, mirrored from the crawler's
`init.sql`): `link TEXT UNIQUE`, and the partial unique index
`idx_jobs_unique_title_company_source` on
`(LOWER(title), LOWER(COALESCE(company, '')), source) WHERE title IS NOT NULL`.
-/

/-- An incoming scraped listing, the data a crawler hands to the store.
`title`, `company`, `location` and `posted` are nullable columns; `source`
is always set by the crawler that produced the listing. -/
structure Listing where
  source : String
  title : Option String
  link : String
  company : Option String
  location : Option String
  posted : Option String
  posted_date : Option Int
deriving DecidableEq

/-- A stored row of the `jobs` table: a listing plus the columns the database
fills in (`created_at TIMESTAMP DEFAULT NOW()` and
`processed BOOLEAN DEFAULT FALSE`). -/
structure Job extends Listing where
  processed : Bool
  created_at : Nat
deriving DecidableEq

/-- Key of the partial unique index `idx_jobs_unique_title_company_source`:
defined only `WHERE title IS NOT NULL`; lowercases the title and
`COALESCE(company, '')`; third component is the source. -/
def Listing.tripleKey (l : Listing) : Option (List Char × List Char × String) :=
  l.title.map (fun t => (lowerList t, lowerList (l.company.getD ""), l.source))

inductive UpsertOutcome where
  | inserted
  | skipped_duplicate
deriving DecidableEq

/-- True when inserting `l` would violate the `UNIQUE` constraint on `link`. -/
def linkConflict (store : List Job) (l : Listing) : Bool :=
  store.any (fun r => r.link == l.link)

/-- True when inserting `l` would violate the partial unique index
`idx_jobs_unique_title_company_source`; only rows and listings with a
non-null title participate in that index. -/
def tripleConflict (store : List Job) (l : Listing) : Bool :=
  match l.tripleKey with
  | none => false
  | some k => store.any (fun r => r.toListing.tripleKey == some k)

/-- Modelled from the spec: the Dedup Store `upsert` (the FastAPI backend
implementing it is not among the provided sources).  An insert of `l` at
time `t` is attempted under the two storage-layer uniqueness constraints of
the `jobs` schema; when either is violated the operation is a no-op on the
store and reports `skipped_duplicate`; otherwise the row is appended with
the column defaults `processed = false` and `created_at = t`. -/
def upsert (store : List Job) (t : Nat) (l : Listing) : List Job × UpsertOutcome :=
  if linkConflict store l || tripleConflict store l then
    (store, .skipped_duplicate)
  else
    (store ++ [{ toListing := l, processed := false, created_at := t }], .inserted)

/-- Fold a sequence of timed upserts over a store. -/
def upsertAll (store : List Job) : List (Nat × Listing) → List Job
  | [] => store
  | (t, l) :: rest => upsertAll (upsert store t l).1 rest

/-- The partial-index invariant: among stored rows with a non-null title, the
triple key is unique. -/
def tripleUnique (store : List Job) : Prop :=
  store.Pairwise (fun r s =>
    ∀ k, r.toListing.tripleKey = some k → s.toListing.tripleKey ≠ some k)

/-! ### Keyword filter -/

/-- Modelled from the spec: the Keyword Filter `matches` (the Python crawler
implementing it is not among the provided sources; `README_CONFIG.md`
documents its contract).  With an empty keyword set every listing is
accepted; otherwise the listing matches iff some keyword occurs
case-insensitively in the concatenation of title, company and location,
null fields contributing the empty string. -/
def matchesKeywords (l : Listing) (keywords : List String) : Bool :=
  keywords.isEmpty ||
    keywords.any (fun k =>
      containsCI (l.title.getD "" ++ l.company.getD "" ++ l.location.getD "") k)

/-! ### Config version store -/

/-- One configured search query with its keyword filter (a `search_patterns`
entry of `search_config.json`). -/
structure QuerySpec where
  query : String
  keywords : List String
deriving DecidableEq

/-- One provider entry of a search configuration.  `queries` is `none` when
the provider entry lacks the key entirely (a malformed config). -/
structure ProviderConfig where
  base_url : String
  search_path : String
  queries : Option (List QuerySpec)
deriving DecidableEq

/-- A search configuration: a mapping from provider name to provider entry. -/
structure SearchConfig where
  providers : List (String × ProviderConfig)
deriving DecidableEq

/-- A saved configuration version: time-derived filename, content snapshot,
modification time and the active marker. -/
structure ConfigVersion where
  filename : String
  content : SearchConfig
  modified : Nat
  is_active : Bool
deriving DecidableEq

inductive ActivateOutcome where
  | success
  | notFound
deriving DecidableEq

/-- Modelled from the spec: the Config Version Store `activate(filename)`
(the backend implementing it is not among the provided sources): in one
atomic step the named version is marked active and all others inactive;
when no version carries the filename, nothing changes and `notFound` is
reported. -/
def activate (store : List ConfigVersion) (fn : String) :
    List ConfigVersion × ActivateOutcome :=
  if store.any (fun v => v.filename == fn) then
    (store.map (fun v => { v with is_active := v.filename == fn }), .success)
  else
    (store, .notFound)

/-- Fold a sequence of activate calls over a version store. -/
def applyActivates (store : List ConfigVersion) : List String → List ConfigVersion
  | [] => store
  | fn :: rest => applyActivates (activate store fn).1 rest

/-- Problems of one provider entry, itemized: a missing `queries` key is one
problem; every query with an empty `query` string is one problem. -/
def providerProblems (name : String) (pc : ProviderConfig) : List String :=
  match pc.queries with
  | none => ["provider " ++ name ++ ": missing queries key"]
  | some qs =>
    (qs.filter (fun q => q.query == "")).map
      (fun _ => "provider " ++ name ++ ": empty query string")

/-- Modelled from the spec: the itemized validation performed by the config
importer (the backend is not among the provided sources).  All problems
over all providers are collected rather than stopping at the first. -/
def validationProblems (c : SearchConfig) : List String :=
  c.providers.foldr (fun p acc => providerProblems p.1 p.2 ++ acc) []

inductive ImportOutcome where
  | ok (filename : String)
  | validationError (details : List String)
deriving DecidableEq

/-- Modelled from the spec: `import(content)` (the backend is not among the
provided sources): validates strictly, collecting all problems; on any
problem it reports `ConfigValidationError` with the itemized details and
creates no version; otherwise it appends a new inactive version with a
time-derived filename. -/
def importConfig (now : Nat) (store : List ConfigVersion) (c : SearchConfig) :
    List ConfigVersion × ImportOutcome :=
  let errs := validationProblems c
  if errs.isEmpty then
    (store ++ [{ filename := "search_config_" ++ toString now ++ ".json",
                 content := c, modified := now, is_active := false }],
     .ok ("search_config_" ++ toString now ++ ".json"))
  else
    (store, .validationError errs)

/-! ### Crawl orchestrator: run lock and progress tracking -/

/-- Process-wide crawl progress state polled by the web client. -/
structure ProgressState where
  running : Bool
  total : Nat
  completed : Nat
  logs : List String
deriving DecidableEq

/-- Orchestrator state: the progress holder plus two bookkeeping counters
used to express concurrency properties (how many runs are currently
executing, and how many runs were ever started). -/
structure OrchState where
  progress : ProgressState
  activeRuns : Nat
  runsStarted : Nat
deriving DecidableEq

inductive TriggerOutcome where
  | started
  | alreadyRunning
deriving DecidableEq

/-- Modelled from the spec: `triggerRun` with the orchestrator-held boolean
lock (the backend endpoint is not among the provided sources).  A trigger
while a run is `running` is rejected with `AlreadyRunning`, is not queued,
and changes nothing; otherwise the progress state is reset and a new run
starts. -/
def triggerRun (total : Nat) (st : OrchState) : OrchState × TriggerOutcome :=
  if st.progress.running then
    (st, .alreadyRunning)
  else
    ({ progress := { running := true, total := total, completed := 0, logs := [] },
       activeRuns := st.activeRuns + 1,
       runsStarted := st.runsStarted + 1 }, .started)

/-- Modelled from the spec: one work item of the running crawl finishes —
`completed` is incremented and a log line appended. -/
def advanceRun (line : String) (st : OrchState) : OrchState :=
  { st with progress := { st.progress with
      completed := st.progress.completed + 1,
      logs := st.progress.logs ++ [line] } }

/-- Modelled from the spec: the running crawl terminates (success or
failure): `running` is cleared and the run stops executing. -/
def finishRun (st : OrchState) : OrchState :=
  { st with activeRuns := st.activeRuns - 1,
            progress := { st.progress with running := false } }

/-- One orchestrator transition: a trigger request, progress on a work item
of the running crawl, or termination of the running crawl. -/
inductive OrchStep : OrchState → OrchState → Prop
  | trigger (total : Nat) (st : OrchState) : OrchStep st (triggerRun total st).1
  | advance (line : String) (st : OrchState) (h : st.progress.running = true) :
      OrchStep st (advanceRun line st)
  | finish (st : OrchState) (h : st.progress.running = true) :
      OrchStep st (finishRun st)

/-- The initial orchestrator state: idle, nothing ever started. -/
def orchInit : OrchState :=
  { progress := { running := false, total := 0, completed := 0, logs := [] },
    activeRuns := 0, runsStarted := 0 }

/-- States reachable from the initial state by orchestrator transitions. -/
inductive OrchReachable : OrchState → Prop
  | init : OrchReachable orchInit
  | step {s s2 : OrchState} : OrchReachable s → OrchStep s s2 → OrchReachable s2

/-- Client-side outcome of handling the `/crawler/run` response in
`triggerCrawler` (web client `app.js`). -/
inductive ClientAction where
  | warnAlreadyRunning
  | startPolling
  | showError
deriving DecidableEq

/-- The response handling of `triggerCrawler` (app.js): a response with
`status === 'error'` — the already-running rejection — shows a warning and
re-enables the button after a delay, issuing no further trigger request and
queueing nothing; `response.ok` with `status === 'started'` begins polling;
anything else shows an error. -/
def handleTriggerResponse (ok : Bool) (status : String) : ClientAction :=
  if status == "error" then .warnAlreadyRunning
  else if ok && status == "started" then .startPolling
  else .showError

/-! ### Web client job sorting (`parseGermanDate`, `compareValues`,
`createJobTable` in app.js) -/

def MS_PER_DAY : Int := 86400000

/-- Day count of a civil date (month `m` in 1..12, day 1) relative to
1970-01-01 in the proleptic Gregorian calendar, modelling the calendar
underlying the JS `Date` constructor.  Floor division is used throughout. -/
def daysFromCivil (y m : Int) : Int :=
  let y2 := if m ≤ 2 then y - 1 else y
  let era := y2.fdiv 400
  let yoe := y2 - era * 400
  let mp := (m + 9).emod 12
  let doy := (153 * mp + 2).fdiv 5
  era * 146097 + yoe * 365 + yoe.fdiv 4 - yoe.fdiv 100 + doy - 719468

/-- Millisecond timestamp of JS `new Date(year, monthIndex, day)`: years 0..99
map to 1900..1999, the month index is normalized into the year, and the day
is an offset from the first of the month.  Local-time subtleties (DST) are
not modelled. -/
def jsDateMs (year month day : Int) : Int :=
  let y := if 0 ≤ year ∧ year ≤ 99 then year + 1900 else year
  (daysFromCivil (y + month.fdiv 12) (month.emod 12 + 1) + (day - 1)) * MS_PER_DAY

/-- Consume the regex piece `\s+`: at least one whitespace character,
maximal run. -/
def skipWs1 (l : List Char) : Option (List Char) :=
  match l with
  | c :: rest => if isWs c then some (rest.dropWhile isWs) else none
  | [] => none

/-- Consume the regex group `(\d+)`: at least one digit, maximal run, with
its numeric value. -/
def takeDigits1 (l : List Char) : Option (Int × List Char) :=
  match l with
  | c :: _ => if c.isDigit then some (digitRunVal l, l.dropWhile Char.isDigit) else none
  | [] => none

/-- Match `vor`, `\s+`, `(\d+)`, `\s+`, `tag` at the head of an already
lowercased input. -/
def vorTagAt (l : List Char) : Option Int :=
  if ['v', 'o', 'r'].isPrefixOf l then
    match skipWs1 (l.drop 3) with
    | none => none
    | some r1 =>
      match takeDigits1 r1 with
      | none => none
      | some (n, r2) =>
        match skipWs1 r2 with
        | none => none
        | some r3 => if ['t', 'a', 'g'].isPrefixOf r3 then some n else none
  else none

/-- Leftmost match of the regex `vor\s+(\d+)\s+tag` (case-insensitive, by
running on the lowercased input), modelling
`dateStr.match(/vor\s+(\d+)\s+tag/i)` with `parseInt` of the capture. -/
def findVorTag : List Char → Option Int
  | [] => none
  | c :: rest =>
    match vorTagAt (c :: rest) with
    | some n => some n
    | none => findVorTag rest

/-- The web client's `parseGermanDate` (app.js).  Null, empty and `"N/A"`
inputs give no date; inputs containing `heute` or `gestern` and relative
`vor N Tagen` phrases resolve against `now` (a millisecond timestamp;
calendar-day steps are modelled as whole-day millisecond offsets);
otherwise a `DD.MM.YYYY` value is parsed with `parseInt` into the JS
`Date(year, month, day)` constructor.  Result: a millisecond timestamp, or
`none` for unparseable input. -/
def parseGermanDate (now : Int) : Option String → Option Int
  | none => none
  | some s =>
    if s == "" || s == "N/A" then none
    else
      let ls := lowerList s
      if containsSub ("heute".toList) ls then some now
      else if containsSub ("gestern".toList) ls then some (now - MS_PER_DAY)
      else
        match findVorTag ls with
        | some n => some (now - n * MS_PER_DAY)
        | none =>
          match s.splitOn "." with
          | [p1, p2, p3] =>
            match jsParseInt p1, jsParseInt p2, jsParseInt p3 with
            | some day, some month, some year => some (jsDateMs year (month - 1) day)
            | _, _, _ => none
          | _ => none

/-- Field access `a[column]` for the sortable text columns of the job table. -/
def fieldOf (j : Job) (column : String) : Option String :=
  if column == "title" then j.title
  else if column == "company" then j.company
  else if column == "location" then j.location
  else none

/-- JS `(a[column] || 'N/A')`: both null and the empty string are falsy. -/
def fieldOrNA (j : Job) (column : String) : String :=
  match fieldOf j column with
  | none => "N/A"
  | some v => if v == "" then "N/A" else v

/-- Lexicographic order on character lists by code point, modelling the JS
string comparison `aVal < bVal`. -/
def lexLt : List Char → List Char → Bool
  | [], [] => false
  | [], _ :: _ => true
  | _ :: _, [] => false
  | a :: as, b :: bs =>
    if a.toNat < b.toNat then true
    else if b.toNat < a.toNat then false
    else lexLt as bs

/-- The web client's `compareValues(a, b, column, ascending)` comparator
(app.js): the `posted` column compares parsed dates and forces null dates to
the end regardless of direction; the text columns compare lowercased values
with `N/A` substituted for missing ones; unknown columns compare equal. -/
def compareValues (now : Int) (a b : Job) (column : String) (ascending : Bool) : Int :=
  if column == "posted" then
    match parseGermanDate now a.posted, parseGermanDate now b.posted with
    | none, none => 0
    | none, some _ => 1
    | some _, none => -1
    | some av, some bv => if ascending then av - bv else bv - av
  else if column == "title" || column == "company" || column == "location" then
    let av := lowerList (fieldOrNA a column)
    let bv := lowerList (fieldOrNA b column)
    if av = bv then 0
    else if ascending then (if lexLt av bv then -1 else 1)
    else -(if lexLt av bv then -1 else 1)
  else 0

/-- Sorting the job list with the `compareValues` comparator for a column and
direction; JS `Array.prototype.sort` with comparator `c` is modelled as a
merge sort by the relation `c a b ≤ 0`. -/
def sortJobsBy (now : Int) (column : String) (ascending : Bool) (jobs : List Job) :
    List Job :=
  jobs.mergeSort (fun a b => compareValues now a b column ascending ≤ 0)

/-- The default sorting applied by `createJobTable` (app.js): by parsed date,
descending (newest first), when any job has a parseable date; otherwise by
company, ascending. -/
def sortedByDefault (now : Int) (jobs : List Job) : List Job :=
  if jobs.any (fun j => (parseGermanDate now j.posted).isSome) then
    sortJobsBy now "posted" false jobs
  else
    sortJobsBy now "company" true jobs

/-! ### Web client log window (`addLogLine` in app.js) -/

structure LogEntry where
  timestamp : String
  message : String
  color : String
deriving DecidableEq

def MAX_LOG_LINES : Nat := 5

/-- Log colors by message type in `addLogLine` (app.js); unknown types fall
back to the `info` color. -/
def logColor (type : String) : String :=
  if type == "info" then "#60a5fa"
  else if type == "success" then "#48bb78"
  else if type == "error" then "#f56565"
  else if type == "warning" then "#ed8936"
  else "#60a5fa"

/-- The web client's `addLogLine` (app.js): push the new entry, then drop the
oldest entry once the window holds more than `MAX_LOG_LINES` entries. -/
def addLogLine (timestamp message type : String) (logLines : List LogEntry) :
    List LogEntry :=
  let pushed := logLines ++ [{ timestamp := timestamp, message := message,
                               color := logColor type }]
  if MAX_LOG_LINES < pushed.length then pushed.drop 1 else pushed

/-- The log entry produced by one `addLogLine` call. -/
def mkLogEntry (e : String × String × String) : LogEntry :=
  { timestamp := e.1, message := e.2.1, color := logColor e.2.2 }

/-- Folding `addLogLine` over a sequence of appends, starting from the empty
state established by `showProgress` (`logLines = []`). -/
def runLog (entries : List (String × String × String)) : List LogEntry :=
  entries.foldl (fun acc e => addLogLine e.1 e.2.1 e.2.2 acc) []

/-! ### Web client progress percentage (polling loop in `triggerCrawler`) -/

/-- Division as the percentage computation must perform it: defined only for
a nonzero divisor (a zero divisor would not produce a valid percentage). -/
def guardedDiv (a b : ℚ) : Option ℚ :=
  if b = 0 then none else some (a / b)

/-- The progress-percentage computation of the polling loop in
`triggerCrawler` (app.js): `total > 0 ? (completed / total) * 100 : 0`. -/
def progressPercent (completed total : Nat) : Option ℚ :=
  if 0 < total then (guardedDiv (completed : ℚ) (total : ℚ)).map (fun q => q * 100)
  else some 0

/-! ### Concrete fixtures for witnesses and counterexamples -/

/-- A listing with a non-null title, used by the C1 witness. -/
def c1SeniorDev : Listing :=
  { source := "hays", title := some "Senior Dev", link := "https://jobs/a",
    company := some "Acme", location := none, posted := none, posted_date := none }

/-- The same triple as `c1SeniorDev` up to case, but a different link. -/
def c1SeniorDev2 : Listing :=
  { source := "hays", title := some "senior dev", link := "https://jobs/b",
    company := some "ACME", location := none, posted := none, posted_date := none }

/-- A listing with a null title, used by the C1 counterexample. -/
def c1NullTitleA : Listing :=
  { source := "hays", title := none, link := "https://jobs/na",
    company := none, location := none, posted := none, posted_date := none }

/-- A second null-title listing with the same company and source but another
link, used by the C1 counterexample. -/
def c1NullTitleB : Listing :=
  { source := "hays", title := none, link := "https://jobs/nb",
    company := none, location := none, posted := none, posted_date := none }

/-- A listing used by the C2 witness. -/
def c2First : Listing :=
  { source := "solcom", title := some "Data Engineer", link := "https://jobs/x",
    company := some "Beta", location := some "Berlin", posted := none,
    posted_date := none }

/-- A listing with the same link as `c2First` but different fields. -/
def c2Second : Listing :=
  { source := "solcom", title := some "Data Engineer II", link := "https://jobs/x",
    company := some "Beta GmbH", location := some "Bonn", posted := none,
    posted_date := none }

/-- A processed stored row, used by the C3 witness. -/
def c3ProcessedRow : Job :=
  { source := "freelancermap", title := some "Cloud Architect",
    link := "https://jobs/c", company := none, location := none, posted := none,
    posted_date := none, processed := true, created_at := 42 }

/-- A re-crawled copy of `c3ProcessedRow`'s listing, used by the C3 witness. -/
def c3Recrawl : Listing :=
  { source := "freelancermap", title := some "Cloud Architect",
    link := "https://jobs/c", company := none, location := none, posted := none,
    posted_date := none }

/-- A listing with all filterable fields null, used by C4. -/
def c4EmptyFields : Listing :=
  { source := "hays", title := none, link := "https://jobs/e",
    company := none, location := none, posted := none, posted_date := none }

/-- Two inactive versions with distinct filenames, used by the C5 witness. -/
def c5Store : List ConfigVersion :=
  [{ filename := "search_config_1.json", content := { providers := [] },
     modified := 1, is_active := false },
   { filename := "search_config_2.json", content := { providers := [] },
     modified := 2, is_active := false }]

/-- A running orchestrator state, used by the C6 witness. -/
def c6Running : OrchState :=
  { progress := { running := true, total := 3, completed := 1, logs := [] },
    activeRuns := 1, runsStarted := 1 }

/-- A config whose `demo` provider lacks the `queries` key, used by the C7
witness. -/
def c7BadConfig : SearchConfig :=
  { providers :=
      [("demo", { base_url := "https://example.com", search_path := "/search",
                  queries := none }),
       ("hays", { base_url := "https://www.hays.de",
                  search_path := "/jobsuche/stellenangebote-jobs",
                  queries := some [{ query := "salesforce",
                                     keywords := ["salesforce", "apex"] }] })] }

/-! ### Dedup store lemmas and claims C1, C2, C3 -/

theorem upsert_inserted_iff (s : List Job) (t : Nat) (l : Listing) :
    (upsert s t l).2 = .inserted ↔
      linkConflict s l = false ∧ tripleConflict s l = false := by
  unfold upsert
  by_cases h : (linkConflict s l || tripleConflict s l) = true
  · rcases Bool.or_eq_true_iff.mp h with h1 | h1 <;> simp [h, h1]
  · simp only [Bool.or_eq_true_iff, not_or, Bool.not_eq_true] at h
    simp [h.1, h.2]

theorem upsert_fst_of_inserted (s : List Job) (t : Nat) (l : Listing)
    (h : (upsert s t l).2 = .inserted) :
    (upsert s t l).1 = s ++ [{ toListing := l, processed := false, created_at := t }] := by
  rcases (upsert_inserted_iff s t l).mp h with ⟨h1, h2⟩
  simp [upsert, h1, h2]

theorem upsert_of_conflict (s : List Job) (t : Nat) (l : Listing)
    (h : (linkConflict s l || tripleConflict s l) = true) :
    upsert s t l = (s, .skipped_duplicate) := by
  simp [upsert, h]

theorem tripleConflict_of_mem (s : List Job) (l : Listing) (r : Job)
    (hr : r ∈ s) (k : List Char × List Char × String)
    (h1 : r.toListing.tripleKey = some k) (h2 : l.tripleKey = some k) :
    tripleConflict s l = true := by
  unfold tripleConflict
  rw [h2]
  exact List.any_eq_true.mpr ⟨r, hr, by simp [h1]⟩

theorem tripleUnique_upsert (s : List Job) (t : Nat) (l : Listing)
    (h : tripleUnique s) : tripleUnique (upsert s t l).1 := by
  unfold upsert
  by_cases hc : (linkConflict s l || tripleConflict s l) = true
  · simpa [hc] using h
  · rw [if_neg hc]
    unfold tripleUnique at h ⊢
    rw [List.pairwise_append]
    refine ⟨h, List.pairwise_singleton _ _, ?_⟩
    intro a ha b hb
    simp only [List.mem_singleton] at hb
    subst hb
    intro k hk hk2
    simp only [Bool.or_eq_true_iff, not_or, Bool.not_eq_true] at hc
    have : tripleConflict s l = true :=
      tripleConflict_of_mem s l a ha k hk (by simpa using hk2)
    rw [hc.2] at this
    exact Bool.false_ne_true this

theorem tripleUnique_upsertAll (ops : List (Nat × Listing)) :
    ∀ s : List Job, tripleUnique s → tripleUnique (upsertAll s ops) := by
  induction ops with
  | nil => intro s h; exact h
  | cons p rest ih =>
    intro s h
    exact ih _ (tripleUnique_upsert s p.1 p.2 h)

/-- Claim C1 (amended): for every pair of listings with a non-null title,
equal lowercased title, equal lowercased company-or-empty and equal source
but different link, once the first has been inserted the second upsert is
skipped and leaves the store exactly as after the first; and after every
sequence of upserts from an empty store the triple (lowercased title,
lowercased company-or-empty, source) is unique across all stored listings
having a non-null title — matching the partial index's
`WHERE title IS NOT NULL`. -/
theorem c1_triple_dedup :
    (∀ (s : List Job) (t1 t2 : Nat) (l1 l2 : Listing)
       (k : List Char × List Char × String),
       l1.tripleKey = some k → l2.tripleKey = some k → l1.link ≠ l2.link →
       (upsert s t1 l1).2 = .inserted →
       upsert (upsert s t1 l1).1 t2 l2 = ((upsert s t1 l1).1, .skipped_duplicate)) ∧
    (∀ ops : List (Nat × Listing), tripleUnique (upsertAll [] ops)) := by
  constructor
  · intro s t1 t2 l1 l2 k h1 h2 hne hins
    have hstore := upsert_fst_of_inserted s t1 l1 hins
    apply upsert_of_conflict
    apply Bool.or_eq_true_iff.mpr
    right
    apply tripleConflict_of_mem _ l2
      ({ toListing := l1, processed := false, created_at := t1 })
      (by rw [hstore]; simp) k (by simpa using h1) h2
  · intro ops
    exact tripleUnique_upsertAll ops [] List.Pairwise.nil

/-- Witness for C1 at concrete listings whose triples agree up to case. -/
theorem c1_triple_dedup_witness :
    upsert (upsert [] 5 c1SeniorDev).1 6 c1SeniorDev2 =
      ((upsert [] 5 c1SeniorDev).1, .skipped_duplicate) ∧
    tripleUnique (upsertAll [] [(5, c1SeniorDev), (6, c1SeniorDev2)]) :=
  ⟨c1_triple_dedup.1 [] 5 6 c1SeniorDev c1SeniorDev2
    (lowerList "Senior Dev", lowerList "Acme", "hays")
    (by decide) (by decide) (by decide) (by decide),
   c1_triple_dedup.2 [(5, c1SeniorDev), (6, c1SeniorDev2)]⟩

/-- Counterexample to C1 as stated: two listings with a null title, equal
lowercased title (both null), equal lowercased company-or-empty, equal
source and different links are both inserted — the partial unique index
does not apply when the title is null, so the triple is not unique across
all stored listings. -/
theorem c1_counterexample :
    c1NullTitleA.title.map lowerList = c1NullTitleB.title.map lowerList ∧
    lowerList (c1NullTitleA.company.getD "") =
      lowerList (c1NullTitleB.company.getD "") ∧
    c1NullTitleA.source = c1NullTitleB.source ∧
    c1NullTitleA.link ≠ c1NullTitleB.link ∧
    (upsert (upsert [] 0 c1NullTitleA).1 1 c1NullTitleB).2 = .inserted ∧
    (upsertAll [] [(0, c1NullTitleA), (1, c1NullTitleB)]).length = 2 := by
  refine ⟨rfl, rfl, rfl, by decide, by decide, by decide⟩

/-- Claim C2: after upserting two listings with the same link (the second
after a successful first insert), the second is skipped, exactly one stored
row carries that link, and that row's `created_at` is the first insert's
timestamp. -/
theorem c2_link_dedup :
    ∀ (s : List Job) (t1 t2 : Nat) (l1 l2 : Listing),
      l1.link = l2.link →
      (upsert s t1 l1).2 = .inserted →
      (upsert (upsert s t1 l1).1 t2 l2).2 = .skipped_duplicate ∧
      ((upsert (upsert s t1 l1).1 t2 l2).1.filter
        (fun r => r.link == l1.link)).length = 1 ∧
      (∀ r ∈ (upsert (upsert s t1 l1).1 t2 l2).1,
        r.link = l1.link → r.created_at = t1) := by
  intro s t1 t2 l1 l2 hlink hins
  have hnc := (upsert_inserted_iff s t1 l1).mp hins
  have hstore := upsert_fst_of_inserted s t1 l1 hins
  have hnolink : ∀ r ∈ s, r.link ≠ l1.link := by
    intro r hr heq
    have : linkConflict s l1 = true :=
      List.any_eq_true.mpr ⟨r, hr, by simp [heq]⟩
    rw [hnc.1] at this
    exact Bool.false_ne_true this
  have hconf : linkConflict (upsert s t1 l1).1 l2 = true := by
    apply List.any_eq_true.mpr
    refine ⟨{ toListing := l1, processed := false, created_at := t1 }, ?_, ?_⟩
    · rw [hstore]; simp
    · simp [hlink]
  have hskip := upsert_of_conflict _ t2 l2 (Bool.or_eq_true_iff.mpr (Or.inl hconf))
  refine ⟨by rw [hskip], ?_, ?_⟩
  · rw [hskip]
    simp only [hstore, List.filter_append]
    have h0 : s.filter (fun r => r.link == l1.link) = [] := by
      apply List.filter_eq_nil_iff.mpr
      intro r hr
      simp [hnolink r hr]
    rw [h0]
    simp
  · rw [hskip]
    intro r hr hrl
    rw [hstore] at hr
    rcases List.mem_append.mp hr with h | h
    · exact absurd hrl (hnolink r h)
    · simp only [List.mem_singleton] at h
      rw [h]

/-- Witness for C2 at two concrete listings sharing a link. -/
theorem c2_link_dedup_witness :
    (upsert (upsert [] 7 c2First).1 9 c2Second).2 = .skipped_duplicate ∧
    ((upsert (upsert [] 7 c2First).1 9 c2Second).1.filter
      (fun r => r.link == c2First.link)).length = 1 ∧
    (∀ r ∈ (upsert (upsert [] 7 c2First).1 9 c2Second).1,
      r.link = c2First.link → r.created_at = 7) :=
  c2_link_dedup [] 7 9 c2First c2Second rfl (by decide)

/-- Claim C3: when an upsert collides with a pre-existing row under either
uniqueness rule, the operation is a no-op: the store is unchanged, the
outcome is `skipped_duplicate`, and the pre-existing row — with its
`processed` flag and `created_at` — persists untouched; in particular a
processed row is never reset. -/
theorem c3_duplicate_noop :
    ∀ (s : List Job) (t : Nat) (l : Listing) (r : Job),
      r ∈ s →
      (r.link = l.link ∨
        ∃ k, r.toListing.tripleKey = some k ∧ l.tripleKey = some k) →
      (upsert s t l).1 = s ∧ (upsert s t l).2 = .skipped_duplicate ∧
      r ∈ (upsert s t l).1 ∧
      (r.processed = true →
        ∃ r2 ∈ (upsert s t l).1, r2 = r ∧ r2.processed = true) := by
  intro s t l r hr hcol
  have hconf : (linkConflict s l || tripleConflict s l) = true := by
    apply Bool.or_eq_true_iff.mpr
    rcases hcol with h | ⟨k, hk1, hk2⟩
    · exact Or.inl (List.any_eq_true.mpr ⟨r, hr, by simp [h]⟩)
    · exact Or.inr (tripleConflict_of_mem s l r hr k hk1 hk2)
  have hskip := upsert_of_conflict s t l hconf
  rw [hskip]
  exact ⟨rfl, rfl, hr, fun hp => ⟨r, hr, rfl, hp⟩⟩

/-- Witness for C3: re-crawling a processed row leaves it untouched. -/
theorem c3_duplicate_noop_witness :
    (upsert [c3ProcessedRow] 99 c3Recrawl).1 = [c3ProcessedRow] ∧
    (upsert [c3ProcessedRow] 99 c3Recrawl).2 = .skipped_duplicate ∧
    c3ProcessedRow ∈ (upsert [c3ProcessedRow] 99 c3Recrawl).1 ∧
    (c3ProcessedRow.processed = true →
      ∃ r2 ∈ (upsert [c3ProcessedRow] 99 c3Recrawl).1,
        r2 = c3ProcessedRow ∧ r2.processed = true) :=
  c3_duplicate_noop [c3ProcessedRow] 99 c3Recrawl c3ProcessedRow
    (by decide) (Or.inl rfl)

/-! ### Keyword filter lemmas and claim C4 -/

theorem containsSub_iff (pat hay : List Char) :
    containsSub pat hay = true ↔ ∃ pre suf, hay = pre ++ pat ++ suf := by
  induction hay with
  | nil =>
    simp only [containsSub, List.isEmpty_iff]
    constructor
    · intro h
      exact ⟨[], [], by simp [h]⟩
    · rintro ⟨pre, suf, h⟩
      rcases List.append_eq_nil.mp (List.append_eq_nil.mp h.symm).1 with ⟨-, h2⟩
      exact h2
  | cons c rest ih =>
    simp only [containsSub, Bool.or_eq_true_iff]
    constructor
    · rintro (h | h)
      · rcases List.isPrefixOf_iff_prefix.mp h with ⟨suf, hsuf⟩
        exact ⟨[], suf, by simp [hsuf]⟩
      · rcases ih.mp h with ⟨pre, suf, hps⟩
        exact ⟨c :: pre, suf, by simp [hps]⟩
    · rintro ⟨pre, suf, hps⟩
      cases pre with
      | nil =>
        left
        exact List.isPrefixOf_iff_prefix.mpr ⟨suf, by simpa using hps.symm⟩
      | cons d pre2 =>
        right
        apply ih.mpr
        refine ⟨pre2, suf, ?_⟩
        have := hps
        simp only [List.cons_append] at this
        exact (List.cons.injEq _ _ _ _).mp this |>.2

theorem lowerList_eq_nil (s : String) : lowerList s = [] ↔ s = "" := by
  constructor
  · intro h
    have h2 : s.toList = [] := by
      have := List.map_eq_nil_iff.mp h
      exact this
    cases s with
    | mk data =>
      simp only [String.toList] at h2
      simp [h2]
  · intro h
    simp [h, lowerList]

/-- Claim C4 (amended): the filter accepts everything when the keyword set is
empty; for a non-empty keyword set it matches exactly when some keyword
occurs, case-insensitively, as a substring of the concatenation of title,
company and location; and a listing whose three fields are all null or
empty never matches a non-empty set of non-empty keywords. -/
theorem c4_filter_matches :
    ∀ (l : Listing) (keywords : List String),
      (keywords = [] → matchesKeywords l keywords = true) ∧
      (keywords ≠ [] →
        (matchesKeywords l keywords = true ↔
          ∃ k ∈ keywords, ∃ pre suf,
            lowerList (l.title.getD "" ++ l.company.getD "" ++ l.location.getD "") =
              pre ++ lowerList k ++ suf)) ∧
      ((l.title = none ∨ l.title = some "") →
       (l.company = none ∨ l.company = some "") →
       (l.location = none ∨ l.location = some "") →
       keywords ≠ [] → (∀ k ∈ keywords, k ≠ "") →
       matchesKeywords l keywords = false) := by
  intro l keywords
  refine ⟨fun h => by simp [h, matchesKeywords], ?_, ?_⟩
  · intro hne
    unfold matchesKeywords
    rw [Bool.or_eq_true_iff]
    have hni : keywords.isEmpty = false := by
      simpa [List.isEmpty_iff] using hne
    rw [hni]
    simp only [Bool.false_eq_true, false_or, List.any_eq_true]
    constructor
    · rintro ⟨k, hk, hck⟩
      exact ⟨k, hk, (containsSub_iff _ _).mp hck⟩
    · rintro ⟨k, hk, h⟩
      exact ⟨k, hk, (containsSub_iff _ _).mpr h⟩
  · intro ht hc hl hne hkw
    have hhay : l.title.getD "" ++ l.company.getD "" ++ l.location.getD "" = "" := by
      rcases ht with h | h <;> rcases hc with h2 | h2 <;> rcases hl with h3 | h3 <;>
        simp [h, h2, h3]
    unfold matchesKeywords containsCI
    rw [hhay]
    have hni : keywords.isEmpty = false := by
      simpa [List.isEmpty_iff] using hne
    rw [hni]
    simp only [Bool.false_or, List.any_eq_false]
    intro k hk
    have : lowerList "" = [] := by simp [lowerList]
    rw [this]
    unfold containsSub
    simp only [List.isEmpty_iff]
    intro hcontra
    exact hkw k hk ((lowerList_eq_nil k).mp hcontra)

/-- Witness for C4: an all-null listing rejects a non-empty keyword, and an
empty keyword set accepts it. -/
theorem c4_filter_matches_witness :
    matchesKeywords c4EmptyFields ["salesforce"] = false ∧
    matchesKeywords c4EmptyFields [] = true :=
  ⟨(c4_filter_matches c4EmptyFields ["salesforce"]).2.2
      (Or.inl rfl) (Or.inl rfl) (Or.inl rfl) (by decide) (by decide),
   (c4_filter_matches c4EmptyFields []).1 rfl⟩

/-- Counterexample to C4 as stated: the empty keyword is a substring of
everything, so a listing with all fields null matches the non-empty keyword
set containing only the empty string — contradicting the claim that such a
listing never matches a non-empty keyword set. -/
theorem c4_counterexample :
    c4EmptyFields.title = none ∧ c4EmptyFields.company = none ∧
    c4EmptyFields.location = none ∧ ([""] ≠ ([] : List String)) ∧
    matchesKeywords c4EmptyFields [""] = true := by
  refine ⟨rfl, rfl, rfl, by decide, by decide⟩

/-! ### Config version store lemmas and claim C5 -/

theorem activate_filenames (s : List ConfigVersion) (fn : String) :
    ((activate s fn).1).map (fun v => v.filename) = s.map (fun v => v.filename) := by
  unfold activate
  by_cases h : s.any (fun v => v.filename == fn) = true
  · simp [h, List.map_map, Function.comp]
  · simp [h]

theorem countP_filename_eq_one (s : List ConfigVersion) (fn : String)
    (hnd : (s.map (fun v => v.filename)).Nodup)
    (hmem : s.any (fun v => v.filename == fn) = true) :
    s.countP (fun v => v.filename == fn) = 1 := by
  induction s with
  | nil => simp at hmem
  | cons v rest ih =>
    simp only [List.map_cons, List.nodup_cons] at hnd
    rw [List.countP_cons]
    by_cases hv : (v.filename == fn) = true
    · have hfn : v.filename = fn := by simpa using hv
      have hzero : rest.countP (fun w => w.filename == fn) = 0 := by
        apply List.countP_eq_zero.mpr
        intro w hw
        simp only [beq_iff_eq]
        intro hwfn
        apply hnd.1
        rw [hfn, ← hwfn]
        exact List.mem_map_of_mem _ hw
      simp [hzero, hv]
    · have hv2 : (v.filename == fn) = false := by simpa using hv
      have hrest : rest.any (fun w => w.filename == fn) = true := by
        rcases List.any_eq_true.mp hmem with ⟨w, hw, hwp⟩
        rcases List.mem_cons.mp hw with h | h
        · rw [h] at hwp; rw [hwp] at hv2; cases hv2
        · exact List.any_eq_true.mpr ⟨w, h, hwp⟩
      simp [hv2, ih hnd.2 hrest]

theorem activate_success_one (s : List ConfigVersion) (fn : String)
    (hnd : (s.map (fun v => v.filename)).Nodup)
    (hmem : s.any (fun v => v.filename == fn) = true) :
    ((activate s fn).1).countP (fun v => v.is_active) = 1 := by
  unfold activate
  rw [if_pos hmem]
  rw [List.countP_map]
  have : ((fun v : ConfigVersion => v.is_active) ∘
      (fun v : ConfigVersion => { v with is_active := v.filename == fn })) =
      (fun v : ConfigVersion => v.filename == fn) := rfl
  rw [this]
  exact countP_filename_eq_one s fn hnd hmem

theorem activate_preserves_one (s : List ConfigVersion) (fn : String)
    (hnd : (s.map (fun v => v.filename)).Nodup)
    (h1 : s.countP (fun v => v.is_active) = 1) :
    ((activate s fn).1).countP (fun v => v.is_active) = 1 := by
  by_cases hmem : s.any (fun v => v.filename == fn) = true
  · exact activate_success_one s fn hnd hmem
  · unfold activate
    rw [if_neg hmem]
    exact h1

theorem applyActivates_preserves_one (fns : List String) :
    ∀ s : List ConfigVersion, (s.map (fun v => v.filename)).Nodup →
      s.countP (fun v => v.is_active) = 1 →
      (applyActivates s fns).countP (fun v => v.is_active) = 1 := by
  induction fns with
  | nil => intro s _ h1; exact h1
  | cons fn rest ih =>
    intro s hnd h1
    apply ih
    · rw [activate_filenames]; exact hnd
    · exact activate_preserves_one s fn hnd h1

/-- Claim C5: with pairwise-distinct filenames, after any sequence of
activate calls of which at least one names a present version, exactly one
version is active — activation atomically marks the target active and all
others inactive, and further activations (successful or not-found) preserve
the exactly-one invariant. -/
theorem c5_exactly_one_active :
    ∀ (store : List ConfigVersion) (fns : List String),
      (store.map (fun v => v.filename)).Nodup →
      (∃ fn ∈ fns, store.any (fun v => v.filename == fn) = true) →
      (applyActivates store fns).countP (fun v => v.is_active) = 1 := by
  intro store fns
  induction fns generalizing store with
  | nil =>
    rintro _ ⟨fn, hfn, -⟩
    cases hfn
  | cons fn rest ih =>
    intro hnd hex
    by_cases hmem : store.any (fun v => v.filename == fn) = true
    · show (applyActivates (activate store fn).1 rest).countP _ = 1
      apply applyActivates_preserves_one
      · rw [activate_filenames]; exact hnd
      · exact activate_success_one store fn hnd hmem
    · have hsame : (activate store fn).1 = store := by
        unfold activate; rw [if_neg hmem]
      show (applyActivates (activate store fn).1 rest).countP _ = 1
      rw [hsame]
      rcases hex with ⟨fn0, hfn0, hany⟩
      rcases List.mem_cons.mp hfn0 with h | h
      · rw [h] at hany; exact absurd hany hmem
      · exact ih store hnd ⟨fn0, h, hany⟩

/-- Witness for C5: activating the second of two inactive versions leaves
exactly one active version. -/
theorem c5_exactly_one_active_witness :
    (applyActivates c5Store ["search_config_2.json"]).countP
      (fun v => v.is_active) = 1 :=
  c5_exactly_one_active c5Store ["search_config_2.json"] (by decide)
    ⟨"search_config_2.json", by decide, by decide⟩

/-! ### Orchestrator lemmas and claim C6 -/

theorem orch_step_inv {s1 s2 : OrchState} (hstep : OrchStep s1 s2)
    (ih : s1.activeRuns = (if s1.progress.running then 1 else 0)) :
    s2.activeRuns = (if s2.progress.running then 1 else 0) := by
  cases hstep with
  | trigger total =>
    unfold triggerRun
    by_cases hr : s1.progress.running = true
    · simp only [hr, if_true]
      simpa [hr] using ih
    · have hr2 : s1.progress.running = false := by simpa using hr
      simp only [hr2, Bool.false_eq_true, if_false]
      simp only [hr2, Bool.false_eq_true, if_false] at ih
      simp [ih]
  | advance line hr =>
    simpa [advanceRun] using ih
  | finish =>
    rename_i hr
    rw [hr, if_pos rfl] at ih
    simp [finishRun, ih]

theorem orch_invariant {st : OrchState} (h : OrchReachable st) :
    st.activeRuns = (if st.progress.running then 1 else 0) := by
  induction h with
  | init => rfl
  | step _ hstep ih => exact orch_step_inv hstep ih

/-- Claim C6: a trigger received while a run is `running` returns
`AlreadyRunning` and changes nothing — no second run is started, nothing is
queued; in every reachable orchestrator state at most one run is executing
(`activeRuns` tracks the `running` lock exactly); and the web client's
handling of the rejection shows a warning without retrying. -/
theorem c6_single_run :
    (∀ (st : OrchState) (total : Nat), st.progress.running = true →
      triggerRun total st = (st, .alreadyRunning)) ∧
    (∀ st : OrchState, OrchReachable st →
      st.activeRuns = (if st.progress.running then 1 else 0)) ∧
    (∀ st : OrchState, OrchReachable st → st.activeRuns ≤ 1) ∧
    (∀ ok : Bool, handleTriggerResponse ok "error" = .warnAlreadyRunning) := by
  refine ⟨?_, ?_, ?_, ?_⟩
  · intro st total h
    simp [triggerRun, h]
  · intro st h
    exact orch_invariant h
  · intro st h
    rw [orch_invariant h]
    by_cases hr : st.progress.running = true <;> simp [hr]
  · intro ok
    rfl

/-- Witness for C6: a trigger against a concrete running state is rejected
unchanged, and the initial state satisfies the single-run bound. -/
theorem c6_single_run_witness :
    triggerRun 4 c6Running = (c6Running, .alreadyRunning) ∧
    orchInit.activeRuns ≤ 1 ∧
    handleTriggerResponse true "error" = .warnAlreadyRunning :=
  ⟨c6_single_run.1 c6Running 4 rfl,
   c6_single_run.2.2.1 orchInit OrchReachable.init,
   c6_single_run.2.2.2 true⟩

/-! ### Config import lemmas and claim C7 -/

theorem mem_validationProblems (ps : List (String × ProviderConfig))
    (name : String) (pc : ProviderConfig) (msg : String)
    (hmem : (name, pc) ∈ ps) (hmsg : msg ∈ providerProblems name pc) :
    msg ∈ ps.foldr (fun p acc => providerProblems p.1 p.2 ++ acc) [] := by
  induction ps with
  | nil => cases hmem
  | cons p rest ih =>
    simp only [List.foldr_cons, List.mem_append]
    rcases List.mem_cons.mp hmem with h | h
    · left
      rw [← h]
      exact hmsg
    · right
      exact ih h

/-- Claim C7: when some provider entry lacks the `queries` key, import
reports a validation error carrying a non-empty itemized details list that
contains one entry for every provider with that problem (collected, not
fail-fast), and the version store is unchanged — no version is created. -/
theorem c7_import_validation :
    ∀ (now : Nat) (store : List ConfigVersion) (c : SearchConfig)
      (name : String) (pc : ProviderConfig),
      (name, pc) ∈ c.providers → pc.queries = none →
      importConfig now store c = (store, .validationError (validationProblems c)) ∧
      validationProblems c ≠ [] ∧
      ("provider " ++ name ++ ": missing queries key") ∈ validationProblems c ∧
      (∀ (n2 : String) (pc2 : ProviderConfig), (n2, pc2) ∈ c.providers →
        pc2.queries = none →
        ("provider " ++ n2 ++ ": missing queries key") ∈ validationProblems c) := by
  intro now store c name pc hmem hq
  have hin : ("provider " ++ name ++ ": missing queries key") ∈ validationProblems c := by
    apply mem_validationProblems c.providers name pc _ hmem
    simp [providerProblems, hq]
  have hne : validationProblems c ≠ [] := List.ne_nil_of_mem hin
  refine ⟨?_, hne, hin, ?_⟩
  · unfold importConfig
    have : (validationProblems c).isEmpty = false := by
      simpa [List.isEmpty_iff] using hne
    simp [this]
  · intro n2 pc2 hmem2 hq2
    apply mem_validationProblems c.providers n2 pc2 _ hmem2
    simp [providerProblems, hq2]

/-- Witness for C7 at a config whose `demo` provider lacks `queries`. -/
theorem c7_import_validation_witness :
    importConfig 3 [] c7BadConfig =
      ([], .validationError (validationProblems c7BadConfig)) ∧
    validationProblems c7BadConfig ≠ [] ∧
    ("provider demo: missing queries key") ∈ validationProblems c7BadConfig ∧
    (∀ (n2 : String) (pc2 : ProviderConfig), (n2, pc2) ∈ c7BadConfig.providers →
      pc2.queries = none →
      ("provider " ++ n2 ++ ": missing queries key") ∈
        validationProblems c7BadConfig) :=
  c7_import_validation 3 [] c7BadConfig "demo"
    { base_url := "https://example.com", search_path := "/search", queries := none }
    (by decide) rfl

/-! ### Web client sorting lemmas and claim C8 -/

theorem compareValues_posted (now : Int) (a b : Job) (asc : Bool) :
    compareValues now a b "posted" asc =
      (match parseGermanDate now a.posted, parseGermanDate now b.posted with
       | none, none => 0
       | none, some _ => 1
       | some _, none => -1
       | some av, some bv => if asc then av - bv else bv - av) := rfl

theorem posted_le_none (now : Int) (a b : Job) (asc : Bool)
    (h : compareValues now a b "posted" asc ≤ 0)
    (ha : parseGermanDate now a.posted = none) :
    parseGermanDate now b.posted = none := by
  rw [compareValues_posted, ha] at h
  rcases hb : parseGermanDate now b.posted with _ | y
  · rfl
  · rw [hb] at h
    simp at h

theorem posted_le_desc (now : Int) (a b : Job) (x y : Int)
    (h : compareValues now a b "posted" false ≤ 0)
    (ha : parseGermanDate now a.posted = some x)
    (hb : parseGermanDate now b.posted = some y) : y ≤ x := by
  rw [compareValues_posted, ha, hb] at h
  simp at h
  omega

theorem posted_trans (now : Int) (asc : Bool) (a b c : Job)
    (h1 : compareValues now a b "posted" asc ≤ 0)
    (h2 : compareValues now b c "posted" asc ≤ 0) :
    compareValues now a c "posted" asc ≤ 0 := by
  rw [compareValues_posted] at h1 h2 ⊢
  rcases hA : parseGermanDate now a.posted with _ | x <;>
    rcases hB : parseGermanDate now b.posted with _ | y <;>
      rcases hC : parseGermanDate now c.posted with _ | z <;>
        rw [hA, hB] at h1 <;> rw [hB, hC] at h2 <;> cases asc <;>
          simp_all <;> omega

theorem posted_total (now : Int) (asc : Bool) (a b : Job) :
    compareValues now a b "posted" asc ≤ 0 ∨
    compareValues now b a "posted" asc ≤ 0 := by
  rw [compareValues_posted, compareValues_posted]
  rcases hA : parseGermanDate now a.posted with _ | x <;>
    rcases hB : parseGermanDate now b.posted with _ | y <;> cases asc <;>
      simp <;> omega

theorem sortJobsBy_posted_pairwise (now : Int) (asc : Bool) (jobs : List Job) :
    (sortJobsBy now "posted" asc jobs).Pairwise
      (fun a b => compareValues now a b "posted" asc ≤ 0) := by
  unfold sortJobsBy
  have hs := @List.sorted_mergeSort Job
    (fun a b : Job => decide (compareValues now a b "posted" asc ≤ 0))
    (fun a b c h1 h2 =>
      decide_eq_true (posted_trans now asc a b c
        (of_decide_eq_true h1) (of_decide_eq_true h2)))
    (fun a b => by
      rcases posted_total now asc a b with h | h
      · exact Bool.or_eq_true_iff.mpr (Or.inl (decide_eq_true h))
      · exact Bool.or_eq_true_iff.mpr (Or.inr (decide_eq_true h)))
    jobs
  exact hs.imp (fun h => of_decide_eq_true h)

/-- Claim C8: the web client's default job ordering (`createJobTable` with
`compareValues`) places the newest parsed date first and every job with an
unparseable date after all jobs with a parseable one; and for the `posted`
column the unparseable-date jobs come last regardless of the sort
direction. -/
theorem c8_sort_order :
    ∀ (now : Int) (jobs : List Job),
      ((sortedByDefault now jobs).Pairwise (fun a b =>
        (parseGermanDate now a.posted = none → parseGermanDate now b.posted = none) ∧
        (∀ x y, parseGermanDate now a.posted = some x →
          parseGermanDate now b.posted = some y → y ≤ x))) ∧
      (∀ asc : Bool, (sortJobsBy now "posted" asc jobs).Pairwise (fun a b =>
        parseGermanDate now a.posted = none → parseGermanDate now b.posted = none)) := by
  intro now jobs
  constructor
  · unfold sortedByDefault
    by_cases hany : (jobs.any fun j => (parseGermanDate now j.posted).isSome) = true
    · rw [if_pos hany]
      exact (sortJobsBy_posted_pairwise now false jobs).imp (fun h =>
        ⟨fun ha => posted_le_none now _ _ false h ha,
         fun x y ha hb => posted_le_desc now _ _ x y h ha hb⟩)
    · rw [if_neg hany]
      have hnull : ∀ j ∈ jobs, parseGermanDate now j.posted = none := by
        intro j hj
        have hf : (jobs.any fun j => (parseGermanDate now j.posted).isSome) = false := by
          simpa using hany
        have h2 := List.any_eq_false.mp hf j hj
        rcases hjp : parseGermanDate now j.posted with _ | x
        · rfl
        · rw [hjp] at h2
          simp at h2
      apply List.pairwise_of_forall_mem_list
      intro a _ b hb
      have hbnull : parseGermanDate now b.posted = none := by
        apply hnull
        have : b ∈ jobs.mergeSort
            (fun a b => decide (compareValues now a b "company" true ≤ 0)) →
            b ∈ jobs := fun hm => List.mem_mergeSort.mp hm
        exact this (by simpa [sortJobsBy] using hb)
      exact ⟨fun _ => hbnull, fun x y _ hbsome => by rw [hbnull] at hbsome; cases hbsome⟩
  · intro asc
    exact (sortJobsBy_posted_pairwise now asc jobs).imp (fun h ha =>
      posted_le_none now _ _ asc h ha)

/-! ### Web client log window lemmas and claim C9 -/

theorem addLogLine_fold (entries : List (String × String × String)) :
    ∀ s : List LogEntry, s.length ≤ MAX_LOG_LINES →
      entries.foldl (fun acc e => addLogLine e.1 e.2.1 e.2.2 acc) s =
        (s ++ entries.map mkLogEntry).drop
          ((s.length + entries.length) - MAX_LOG_LINES) := by
  induction entries with
  | nil =>
    intro s hs
    have hM : MAX_LOG_LINES = 5 := rfl
    have h0 : s.length - MAX_LOG_LINES = 0 := by omega
    simp [h0]
  | cons e rest ih =>
    intro s hs
    have hM : MAX_LOG_LINES = 5 := rfl
    rw [List.foldl_cons]
    have hstep : addLogLine e.1 e.2.1 e.2.2 s =
        (if MAX_LOG_LINES < s.length + 1
         then (s ++ [mkLogEntry e]).drop 1 else s ++ [mkLogEntry e]) := by
      simp [addLogLine, mkLogEntry]
    by_cases hlen : MAX_LOG_LINES < s.length + 1
    · have hfive : s.length = 5 := by omega
      rw [hstep, if_pos hlen]
      have hd1 : (s ++ [mkLogEntry e]).drop 1 = s.drop 1 ++ [mkLogEntry e] :=
        List.drop_append_of_le_length (by omega)
      rw [hd1]
      have hlen2 : (s.drop 1 ++ [mkLogEntry e]).length ≤ MAX_LOG_LINES := by
        simp [List.length_drop]
        omega
      rw [ih _ hlen2]
      have hidx : (s.drop 1 ++ [mkLogEntry e]).length + rest.length - MAX_LOG_LINES =
          rest.length := by
        simp [List.length_drop]
        omega
      rw [hidx]
      have hidx2 : s.length + (e :: rest).length - MAX_LOG_LINES =
          1 + rest.length := by
        simp [List.length_cons]
        omega
      rw [hidx2, List.map_cons]
      rw [← List.drop_drop]
      have hd2 : List.drop 1 (s ++ mkLogEntry e :: rest.map mkLogEntry) =
          s.drop 1 ++ mkLogEntry e :: rest.map mkLogEntry :=
        List.drop_append_of_le_length (by omega)
      rw [hd2]
      congr 1
      simp
    · rw [hstep, if_neg hlen]
      have hlen2 : (s ++ [mkLogEntry e]).length ≤ MAX_LOG_LINES := by
        simp
        omega
      rw [ih _ hlen2]
      have hidx : (s ++ [mkLogEntry e]).length + rest.length - MAX_LOG_LINES =
          s.length + (e :: rest).length - MAX_LOG_LINES := by
        simp
        omega
      rw [hidx]
      congr 1
      simp

/-- Claim C9: the run log window is bounded — after any sequence of appends
the window holds at most `MAX_LOG_LINES` (5) entries, and the retained
entries are exactly the most recently appended ones, in append order (the
oldest entry is dropped first). -/
theorem c9_log_window :
    ∀ entries : List (String × String × String),
      (runLog entries).length ≤ MAX_LOG_LINES ∧
      runLog entries =
        (entries.map mkLogEntry).drop (entries.length - MAX_LOG_LINES) := by
  intro entries
  have h := addLogLine_fold entries [] (by simp)
  simp only [List.length_nil, List.nil_append, Nat.zero_add] at h
  unfold runLog
  refine ⟨?_, h⟩
  rw [h]
  have hM : MAX_LOG_LINES = 5 := rfl
  simp [List.length_drop]
  omega

/-! ### Web client progress percentage and claim C10 -/

/-- Claim C10: the polling progress percentage is guarded — a snapshot with
`total = 0` yields 0 without performing the division, and a snapshot with
`total > 0` yields `(completed / total) * 100`; the computation is total
(never the unguarded zero-divisor case). -/
theorem c10_progress_guard :
    ∀ completed total : Nat,
      (total = 0 → progressPercent completed total = some 0) ∧
      (0 < total →
        progressPercent completed total =
          some ((completed : ℚ) / (total : ℚ) * 100)) ∧
      progressPercent completed total ≠ none := by
  intro completed total
  refine ⟨?_, ?_, ?_⟩
  · intro h
    simp [progressPercent, h]
  · intro h
    have hz : (total : ℚ) ≠ 0 := by
      exact_mod_cast Nat.pos_iff_ne_zero.mp h
    simp [progressPercent, h, guardedDiv, hz]
  · by_cases h : 0 < total
    · have hz : (total : ℚ) ≠ 0 := by
        exact_mod_cast Nat.pos_iff_ne_zero.mp h
      simp [progressPercent, h, guardedDiv, hz]
    · simp [progressPercent, h]

/-- Witness for C10 at concrete counters: zero total yields 0, and 3 of 4
yields 75 percent. -/
theorem c10_progress_guard_witness :
    progressPercent 7 0 = some 0 ∧
    progressPercent 3 4 = some ((3 : ℚ) / (4 : ℚ) * 100) :=
  ⟨(c10_progress_guard 7 0).1 rfl, (c10_progress_guard 3 4).2.1 (by norm_num)⟩

end PawApps
